import Mathlib

/-!
Verification of the smartmeet-ai meeting-assistant core.

Shallow embedding of the Python sources:
  services/nlp_service.py        (parsing confidence, duration and date extraction)
  services/participant_service.py (entity resolution, external participants)
  components/chat_interface.py   (disambiguation confirmations, availability path)
  utils/mock_data.py             (directory lookups)

Conventions: Python strings are `List Char`; float confidences are modelled as
exact rationals; calendar dates are proleptic-Gregorian ordinals in the sense of
Python's `date.toordinal` (0001-01-01 = 1); only ASCII case folding and the
ASCII fragment of Python's regex character classes are modelled, matching the
literal ranges used by the source regexes.
-/

namespace SmartMeet

/-- Python strings, as lists of characters. -/
abbrev Str := List Char

/-- Whitespace recognised by Python `str.split()` / `str.strip()` and the regex
class `\s` (ASCII fragment). -/
def pyIsSpace (c : Char) : Bool :=
  c == ' ' || c == '\t' || c == '\n' || c == '\r' || c == '\x0b' || c == '\x0c'

/-- Word character for the regex `\b` boundary and `\w` (ASCII fragment). -/
def isWordChar (c : Char) : Bool :=
  c.isAlpha || c.isDigit || c == '_'

/-- Lowercase an entire string (`str.lower()`, ASCII fragment). -/
def lowerStr (s : Str) : Str := s.map Char.toLower

/-- `str.strip()`: remove leading and trailing whitespace. -/
def stripStr (s : Str) : Str :=
  ((s.dropWhile pyIsSpace).reverse.dropWhile pyIsSpace).reverse

/-- Helper for `splitWs`, carrying the (reversed) word being accumulated. -/
def splitWsAux : Str → Str → List Str
  | [], acc => if acc.isEmpty then [] else [acc.reverse]
  | c :: cs, acc =>
    if pyIsSpace c then
      if acc.isEmpty then splitWsAux cs [] else acc.reverse :: splitWsAux cs []
    else splitWsAux cs (c :: acc)

/-- Python `str.split()` with no argument: split on whitespace runs, dropping
empty pieces. -/
def splitWs (s : Str) : List Str := splitWsAux s []

/-- Numeric value of a digit string (`int(...)` on a `\d+` group). -/
def natOfDigits (ds : Str) : ℕ :=
  ds.foldl (fun a c => a * 10 + (c.toNat - 48)) 0

/-- Decimal digits of a natural number, fuelled to stay structural. -/
def natDigitsAux : ℕ → ℕ → Str
  | 0, _ => []
  | f + 1, n =>
    if n < 10 then [Char.ofNat (48 + n)]
    else natDigitsAux f (n / 10) ++ [Char.ofNat (48 + n % 10)]

/-- Decimal representation of a natural number (Python `f-string` of an int). -/
def natDigits (n : ℕ) : Str := natDigitsAux (n + 1) n

/-- Value of a `\d+(\.\d+)?` regex group (`float(...)` on the captured
text), represented exactly as a scaled decimal: the value is
`mant / 10 ^ exp10`.  The comparisons and the truncation the extractor
performs on this value are carried out exactly on the pair. -/
structure DecNum where
  mant : ℕ
  exp10 : ℕ
deriving DecidableEq

/-- Parse a `\d+(\.\d+)?` capture into its exact scaled-decimal value. -/
def decimalNum (s : Str) : DecNum :=
  let p := s.span Char.isDigit
  match p.2 with
  | '.' :: fs => ⟨natOfDigits (p.1 ++ fs), fs.length⟩
  | _ => ⟨natOfDigits p.1, 0⟩

/-- `v == n` for a whole number n: `mant / 10^e = n` iff `mant = n * 10^e`. -/
def decEqNat (d : DecNum) (n : ℕ) : Prop := d.mant = n * 10 ^ d.exp10

instance (d : DecNum) (n : ℕ) : Decidable (decEqNat d n) := by
  unfold decEqNat
  infer_instance

/-- `v == 1.5`: `mant / 10^e = 3/2` iff `2 * mant = 3 * 10^e`. -/
def decEqThreeHalves (d : DecNum) : Prop := 2 * d.mant = 3 * 10 ^ d.exp10

instance (d : DecNum) : Decidable (decEqThreeHalves d) := by
  unfold decEqThreeHalves
  infer_instance

/-- `int(v * 60)` for the nonnegative value `v = mant / 10^e`. -/
def decFloor60 (d : DecNum) : ℕ := 60 * d.mant / 10 ^ d.exp10

/-- Helper for `pyTitle`: `prevCased` records whether the previous character was
a letter. -/
def pyTitleAux : Bool → Str → Str
  | _, [] => []
  | prevCased, c :: cs =>
    if c.isAlpha then
      (if prevCased then c.toLower else c.toUpper) :: pyTitleAux true cs
    else c :: pyTitleAux false cs

/-- Python `str.title()` (ASCII fragment): uppercase every letter that follows a
non-letter, lowercase the rest. -/
def pyTitle (s : Str) : Str := pyTitleAux false s

/-- Scan every start position of the text (including the end position), keeping
track of the previous character; succeeds if the position test succeeds
anywhere.  This is `re.search` restricted to a per-position decision. -/
def scanBool (f : Option Char → Str → Bool) : Option Char → Str → Bool
  | prev, [] => f prev []
  | prev, c :: cs => f prev (c :: cs) || scanBool f (some c) cs

/-- Leftmost-position search returning the first successful per-position match
together with the suffix at which it matched (`re.search`). -/
def scanFirst {α : Type} (f : Str → Option α) : Str → Option (Str × α)
  | [] => (f []).map fun a => ([], a)
  | c :: cs =>
    match f (c :: cs) with
    | some a => some (c :: cs, a)
    | none => scanFirst f cs

/-- The `\b` condition on the left of a word character: start of text or a
non-word character before. -/
def boundaryBefore : Option Char → Bool
  | none => true
  | some c => !isWordChar c

/-- The `\b` condition on the right of a word character: end of text or a
non-word character after. -/
def boundaryAfter : Str → Bool
  | [] => true
  | c :: _ => !isWordChar c

/-- Python substring membership `needle in hay`. -/
def isSubstr (needle hay : Str) : Bool :=
  scanBool (fun _ suf => needle.isPrefixOf suf) none hay

/-- `re.search(r'\b<w>\b', text)` for a word `w` made of word characters. -/
def containsWord (w : Str) (t : Str) : Bool :=
  scanBool
    (fun prev suf =>
      boundaryBefore prev && w.isPrefixOf suf && boundaryAfter (suf.drop w.length))
    none t

/-- Characters allowed in the local part of the email regex
`[a-zA-Z0-9._%+-]`. -/
def isLocalChar (c : Char) : Bool :=
  c.isAlpha || c.isDigit || c == '.' || c == '_' || c == '%' || c == '+' || c == '-'

/-- Characters allowed in the domain of the email regex `[a-zA-Z0-9.-]`. -/
def isDomainChar (c : Char) : Bool :=
  c.isAlpha || c.isDigit || c == '.' || c == '-'

/-- Split a string at its last `'.'`, returning the parts before and after. -/
def lastDotSplit : Str → Option (Str × Str)
  | [] => none
  | c :: cs =>
    match lastDotSplit cs with
    | some p => some (c :: p.1, p.2)
    | none => if c == '.' then some ([], cs) else none

/-- Domain side of the email regex: `[a-zA-Z0-9.-]+\.[a-zA-Z]{2,}$`.  The
final `[a-zA-Z]{2,}$` forces the separating dot to be the last dot of the
domain, everything after it alphabetic of length at least two, and everything
before it a non-empty run of domain characters. -/
def validDomain (d : Str) : Bool :=
  match lastDotSplit d with
  | none => false
  | some p =>
    !p.1.isEmpty && p.1.all isDomainChar && decide (2 ≤ p.2.length) && p.2.all Char.isAlpha

/-- `ParticipantService._is_valid_email`: full-anchored match of
`^[a-zA-Z0-9._%+-]+@[a-zA-Z0-9.-]+\.[a-zA-Z]{2,}$`.  The local part cannot
contain `'@'`, so it is exactly the text before the first `'@'`. -/
def isValidEmail (s : Str) : Bool :=
  let locPart := s.takeWhile (fun c => !(c == '@'))
  let rest := s.dropWhile (fun c => !(c == '@'))
  match rest with
  | [] => false
  | c :: domain =>
    c == '@' && !locPart.isEmpty && locPart.all isLocalChar && validDomain domain

/-- `ParticipantService._extract_name_from_email`: local part of the email with
`'.'` and `'_'` replaced by spaces, then title-cased. -/
def extractNameFromEmail (email : Str) : Str :=
  let locPart := email.takeWhile (fun c => !(c == '@'))
  pyTitle (locPart.map fun c => if c == '.' || c == '_' then ' ' else c)

/-! ## Data model (models.py) -/

/-- `models.Participant` dataclass. -/
structure Participant where
  email : Str
  name : Str
  department : Option Str := none
  title : Option Str := none
  availability_status : Str := "unknown".toList
deriving DecidableEq

/-- `models.ParsedMeetingRequest` dataclass; dates are Python ordinals. -/
structure ParsedMeetingRequest where
  original_text : Str
  title : Option Str := none
  participant_names : List Str := []
  participant_emails : List Str := []
  date_mentioned : Option ℕ := none
  time_mentioned : Option Str := none
  duration_mentioned : Option Str := none
  priority_mentioned : Option Str := none
  description : Option Str := none
  confidence : ℚ := 0
deriving DecidableEq

/-- `models.ParticipantMatch` dataclass. -/
structure ParticipantMatch where
  query : Str
  matchesL : List Participant
  confidence : ℚ
  is_exact : Bool := false
  is_email : Bool := false
deriving DecidableEq

/-- `ParticipantMatch.__post_init__` clamps the confidence to `[0,1]`. -/
def mkParticipantMatch (query : Str) (matchesL : List Participant) (confidence : ℚ)
    (is_exact : Bool) (is_email : Bool) : ParticipantMatch :=
  ⟨query, matchesL, max 0 (min 1 confidence), is_exact, is_email⟩

/-- `models.Meeting` dataclass (the fields this development uses; times are
minutes since an epoch). -/
structure Meeting where
  id : Option Str := none
  title : Str := []
  description : Str := []
  organizer : Option Str := none
  participants : List Participant := []
  start_time : Option ℕ := none
  duration_minutes : ℕ := 60
  priority : Str := "medium".toList
  status : Str := "draft".toList
deriving DecidableEq

/-- State of `utils.mock_data.MockDataGenerator`: the participant directory
together with the generated meetings. -/
structure MockState where
  participants : List Participant
  meetings : List Meeting := []
deriving DecidableEq

/-! ## NLP service: confidence (nlp_service.py lines 373-402) -/

/-- The `meeting_keywords` list of `NLPService`. -/
def meetingKeywords : List Str :=
  ["meeting".toList, "call".toList, "sync".toList, "standup".toList, "review".toList,
   "discussion".toList, "session".toList, "presentation".toList, "demo".toList,
   "interview".toList, "chat".toList]

/-- Python truthiness of an `Optional[str]` field (`if parsed.x:`):
present and non-empty. -/
def optStrTruthy : Option Str → Bool
  | none => false
  | some s => !s.isEmpty

/-- Number of meeting keywords occurring as substrings of the lowered text. -/
def meetingWordsFound (text : Str) : ℕ :=
  (meetingKeywords.filter fun k => isSubstr k (lowerStr text)).length

/-- `NLPService._calculate_confidence`: sequential bonuses, keyword bonus
capped at 0.15, total capped at 1.0. -/
def calculateConfidence (p : ParsedMeetingRequest) : ℚ :=
  let c : ℚ := 0
  let c := if !p.original_text.isEmpty then c + 1/10 else c
  let c := if !p.participant_names.isEmpty || !p.participant_emails.isEmpty then c + 3/10 else c
  let c := if p.date_mentioned.isSome then c + 2/10 else c
  let c := if optStrTruthy p.time_mentioned then c + 2/10 else c
  let c := if optStrTruthy p.duration_mentioned then c + 1/10 else c
  let c := if optStrTruthy p.title then c + 1/10 else c
  let c := c + min ((meetingWordsFound p.original_text : ℚ) * (5/100)) (15/100)
  min c 1

/-- The confidence formula as the specification words it: the clamped-to-[0,1]
sum of the individual bonuses ("found" meaning a present, non-empty mention). -/
def specConfidence (p : ParsedMeetingRequest) : ℚ :=
  let s : ℚ :=
    (if !p.original_text.isEmpty then 1/10 else 0) +
    (if !p.participant_names.isEmpty || !p.participant_emails.isEmpty then 3/10 else 0) +
    (if p.date_mentioned.isSome then 2/10 else 0) +
    (if optStrTruthy p.time_mentioned then 2/10 else 0) +
    (if optStrTruthy p.duration_mentioned then 1/10 else 0) +
    (if optStrTruthy p.title then 1/10 else 0) +
    min ((meetingWordsFound p.original_text : ℚ) * (5/100)) (15/100)
  max 0 (min 1 s)

/-! ## NLP service: duration extraction (nlp_service.py lines 273-313) -/

/-- Match a literal at the head of the string, returning the remainder. -/
def matchLit (lit : Str) (s : Str) : Option Str :=
  if lit.isPrefixOf s then some (s.drop lit.length) else none

/-- Greedy optional single character (the `s?` of `hours?`); for the duration
patterns greedy consumption never needs backtracking. -/
def optChar (c : Char) : Str → Str
  | x :: xs => if x == c then xs else x :: xs
  | [] => []

/-- Greedy `\d+`: at least one digit. -/
def matchDigits (s : Str) : Option (Str × Str) :=
  let p := s.span Char.isDigit
  if p.1.isEmpty then none else some p

/-- Greedy `(?:\.\d+)?`: a dot followed by at least one digit, or nothing. -/
def optFrac : Str → (Str × Str)
  | '.' :: rest =>
    let p := rest.span Char.isDigit
    if p.1.isEmpty then ([], '.' :: rest) else ('.' :: p.1, p.2)
  | s => ([], s)

/-- Per-position match of `(\d+(?:\.\d+)?)\s*hours?\s*(\d+)?\s*minutes?`;
greedy matching is deterministic for this pattern because every boundary is
between disjoint character classes. -/
def matchDurHM (s : Str) : Option ((Str × Option Str) × Str) :=
  match matchDigits s with
  | none => none
  | some (d1, r1) =>
    let fr := optFrac r1
    match matchLit "hour".toList (fr.2.dropWhile pyIsSpace) with
    | none => none
    | some r3 =>
      let r4 := (optChar 's' r3).dropWhile pyIsSpace
      let p := r4.span Char.isDigit
      let g2 : Option Str := if p.1.isEmpty then none else some p.1
      match matchLit "minute".toList (p.2.dropWhile pyIsSpace) with
      | none => none
      | some r6 => some ((d1 ++ fr.1, g2), optChar 's' r6)

/-- Per-position match of `(\d+(?:\.\d+)?)\s*hours?`. -/
def matchDurH (s : Str) : Option (Str × Str) :=
  match matchDigits s with
  | none => none
  | some (d1, r1) =>
    let fr := optFrac r1
    match matchLit "hour".toList (fr.2.dropWhile pyIsSpace) with
    | none => none
    | some r3 => some (d1 ++ fr.1, optChar 's' r3)

/-- Per-position match of `(\d+)\s*minutes?` or `(\d+)\s*mins?` (the literal is
the parameter). -/
def matchDurMin (lit : Str) (s : Str) : Option (Str × Str) :=
  match matchDigits s with
  | none => none
  | some (d1, r1) =>
    match matchLit lit (r1.dropWhile pyIsSpace) with
    | none => none
    | some r2 => some (d1, optChar 's' r2)

/-- Per-position match of `(half|1/2)\s*hour`. -/
def matchDurHalf (s : Str) : Option (Str × Str) :=
  match matchLit "half".toList s with
  | some r => (matchLit "hour".toList (r.dropWhile pyIsSpace)).map fun r2 => ("half".toList, r2)
  | none =>
    match matchLit "1/2".toList s with
    | some r => (matchLit "hour".toList (r.dropWhile pyIsSpace)).map fun r2 => ("1/2".toList, r2)
    | none => none

/-- `re.search` for a pattern returning `(groups, rest)`: leftmost match,
yielding `match.group(0)` and the groups. -/
def searchDur {α : Type} (m : Str → Option (α × Str)) (t : Str) : Option (Str × α) :=
  (scanFirst m t).map fun pr => (pr.1.take (pr.1.length - pr.2.2.length), pr.2.1)

/-- The hour-branch classification of `_extract_duration`, on the parsed
hours value and the (possibly absent, read as 0) minutes group. -/
def hourLabel (hours : DecNum) (minutes : ℕ) : Option Str :=
  if decEqNat hours 1 ∧ minutes = 0 then some "1 hour".toList
  else if decEqThreeHalves hours ∨ (decEqNat hours 1 ∧ minutes = 30) then
    some "1.5 hours".toList
  else if decEqNat hours 2 ∧ minutes = 0 then some "2 hours".toList
  else if decFloor60 hours + minutes = 0 then none
  else some (natDigits (decFloor60 hours + minutes) ++ " minutes".toList)

/-- The minute-branch classification of `_extract_duration`. -/
def minuteLabel (minutes : ℕ) : Option Str :=
  if 0 < minutes then some (natDigits minutes ++ " minutes".toList) else none

/-- One iteration body of `NLPService._extract_duration` after a pattern
matched: `mt` is `match.group(0).lower()`; a `none` result is the Python
`continue` on to the next pattern. -/
def durStep (mt : Str) (g1 : Option Str) (g2 : Option Str) : Option Str :=
  if isSubstr "half".toList mt || isSubstr "1/2".toList mt then
    some "30 minutes".toList
  else if isSubstr "hour".toList mt then
    match g1 with
    | none => none
    | some d =>
      hourLabel (decimalNum d) (match g2 with | some m => natOfDigits m | none => 0)
  else if isSubstr "minute".toList mt || isSubstr "min".toList mt then
    match g1 with
    | none => none
    | some d => minuteLabel (natOfDigits d)
  else none

/-- First duration pattern tried on the lowered text. -/
def tryDurHM (t : Str) : Option Str :=
  match searchDur matchDurHM t with
  | some (mt, g1, g2) => durStep mt (some g1) g2
  | none => none

/-- Second duration pattern (one capture group, so the Python code reads the
minutes as 0). -/
def tryDurH (t : Str) : Option Str :=
  match searchDur matchDurH t with
  | some (mt, g1) => durStep mt (some g1) none
  | none => none

/-- Third and fourth duration patterns. -/
def tryDurMin (lit : Str) (t : Str) : Option Str :=
  match searchDur (matchDurMin lit) t with
  | some (mt, g1) => durStep mt (some g1) none
  | none => none

/-- Fifth duration pattern. -/
def tryDurHalf (t : Str) : Option Str :=
  match searchDur matchDurHalf t with
  | some (mt, g1) => durStep mt (some g1) none
  | none => none

/-- `NLPService._extract_duration`: the regex chain over the (?i)-lowered
text; each pattern is found by leftmost search, classified by `durStep`, and a
fall-through (`continue`) moves on to the next pattern. -/
def extractDuration (text : Str) : Option Str :=
  tryDurHM (lowerStr text) <|> tryDurH (lowerStr text) <|>
    tryDurMin "minute".toList (lowerStr text) <|>
    tryDurMin "min".toList (lowerStr text) <|> tryDurHalf (lowerStr text)

/-! ## NLP service: date extraction (nlp_service.py lines 150-220)

Calendar arithmetic follows the standard civil-from-days/days-from-civil
closed forms for the proleptic Gregorian calendar, shifted to Python's
`date.toordinal` convention (0001-01-01 = 1). -/

/-- Days since 1970-01-01 of a civil date. -/
def daysFromCivil (y m d : ℤ) : ℤ :=
  let y2 := if m ≤ 2 then y - 1 else y
  let era := Int.fdiv y2 400
  let yoe := y2 - era * 400
  let mp := if 2 < m then m - 3 else m + 9
  let doy := Int.fdiv (153 * mp + 2) 5 + d - 1
  let doe := yoe * 365 + Int.fdiv yoe 4 - Int.fdiv yoe 100 + doy
  era * 146097 + doe - 719468

/-- Civil date of a days-since-1970-01-01 count. -/
def civilFromDays (z : ℤ) : ℤ × ℤ × ℤ :=
  let z2 := z + 719468
  let era := Int.fdiv z2 146097
  let doe := z2 - era * 146097
  let yoe := Int.fdiv (doe - Int.fdiv doe 1460 + Int.fdiv doe 36524 - Int.fdiv doe 146096) 365
  let y := yoe + era * 400
  let doy := doe - (365 * yoe + Int.fdiv yoe 4 - Int.fdiv yoe 100)
  let mp := Int.fdiv (5 * doy + 2) 153
  let d := doy - Int.fdiv (153 * mp + 2) 5 + 1
  let m := if mp < 10 then mp + 3 else mp - 9
  (if m ≤ 2 then y + 1 else y, m, d)

/-- `date(y,m,d).toordinal()`. -/
def ymdToOrd (y m d : ℤ) : ℕ := (daysFromCivil y m d + 719163).toNat

/-- Year, month and day of a Python ordinal. -/
def ordToYmd (o : ℕ) : ℤ × ℤ × ℤ := civilFromDays ((o : ℤ) - 719163)

/-- `date.weekday()`: Monday = 0; ordinal 1 (0001-01-01) is a Monday. -/
def pyWeekday (o : ℕ) : ℕ := (o + 6) % 7

/-- Gregorian leap year. -/
def isLeapYear (y : ℤ) : Bool := y % 4 == 0 && (y % 100 != 0 || y % 400 == 0)

/-- Length of a month. -/
def daysInMonth (y m : ℤ) : ℤ :=
  if m = 2 then (if isLeapYear y then 29 else 28)
  else if m = 4 ∨ m = 6 ∨ m = 9 ∨ m = 11 then 30
  else 31

/-- Arguments accepted by `datetime.date(y, m, d)` (otherwise ValueError). -/
def isValidYmd (y m d : ℤ) : Bool :=
  decide (1 ≤ y) && decide (y ≤ 9999) && decide (1 ≤ m) && decide (m ≤ 12) &&
    decide (1 ≤ d) && decide (d ≤ daysInMonth y m)

/-- `date(y,m,d).toordinal()` guarded by validity. -/
def mkDateOrd (y m d : ℤ) : Option ℕ :=
  if isValidYmd y m d then some (ymdToOrd y m d) else none

/-- First weekday name (in the order of the Python dict, Monday first) that
occurs as a `\b`-delimited word in the text. -/
def firstWeekday (t : Str) : Option ℕ :=
  if containsWord "monday".toList t then some 0
  else if containsWord "tuesday".toList t then some 1
  else if containsWord "wednesday".toList t then some 2
  else if containsWord "thursday".toList t then some 3
  else if containsWord "friday".toList t then some 4
  else if containsWord "saturday".toList t then some 5
  else if containsWord "sunday".toList t then some 6
  else none

/-- `days_ahead = day_num - today.weekday(); if days_ahead <= 0: days_ahead
+= 7; today + timedelta(days=days_ahead)`. -/
def nextWeekdayOrd (todayOrd w : ℕ) : ℕ :=
  ((todayOrd : ℤ) +
    (if (w : ℤ) - (pyWeekday todayOrd : ℤ) ≤ 0 then
      (w : ℤ) - (pyWeekday todayOrd : ℤ) + 7
    else (w : ℤ) - (pyWeekday todayOrd : ℤ))).toNat

/-- Per-position match of `\b(?:next|this)\s+<day>\b` ("next" and "this" are
both four characters long). -/
def matchNextThis (day : Str) (prev : Option Char) (suf : Str) : Bool :=
  boundaryBefore prev &&
  ("next".toList.isPrefixOf suf || "this".toList.isPrefixOf suf) &&
  (let sp := (suf.drop 4).span pyIsSpace
   !sp.1.isEmpty && day.isPrefixOf sp.2 && boundaryAfter (sp.2.drop day.length))

/-- `re.search(r'\b(?:next|this)\s+<day>\b', t)`. -/
def containsNextThis (day : Str) (t : Str) : Bool :=
  scanBool (matchNextThis day) none t

/-- The `next/this + weekday` loop of `_extract_date` (dead in practice: a
bare weekday word was already caught by `firstWeekday`), translated anyway. -/
def firstNextThisWeekday (t : Str) : Option ℕ :=
  if containsNextThis "monday".toList t then some 0
  else if containsNextThis "tuesday".toList t then some 1
  else if containsNextThis "wednesday".toList t then some 2
  else if containsNextThis "thursday".toList t then some 3
  else if containsNextThis "friday".toList t then some 4
  else if containsNextThis "saturday".toList t then some 5
  else if containsNextThis "sunday".toList t then some 6
  else none

/-- Option-valued leftmost scan that tracks the previous character (for
patterns beginning with `\b`). -/
def scanFirstPrev {α : Type} (f : Option Char → Str → Option α) :
    Option Char → Str → Option α
  | prev, [] => f prev []
  | prev, c :: cs =>
    match f prev (c :: cs) with
    | some a => some a
    | none => scanFirstPrev f (some c) cs

/-- Per-position match of `\b<month>\s+(\d{1,2})\b`: the trailing `\b` forces
the digit run to have length one or two. -/
def matchMonthDay (monthName : Str) (prev : Option Char) (suf : Str) : Option ℕ :=
  if boundaryBefore prev && monthName.isPrefixOf suf then
    let sp := (suf.drop monthName.length).span pyIsSpace
    if sp.1.isEmpty then none
    else
      let ds := sp.2.span Char.isDigit
      if !ds.1.isEmpty && decide (ds.1.length ≤ 2) && boundaryAfter ds.2 then
        some (natOfDigits ds.1)
      else none
  else none

/-- Month names in the order of the Python dict. -/
def monthNames : List (Str × ℤ) :=
  [("january".toList, 1), ("february".toList, 2), ("march".toList, 3),
   ("april".toList, 4), ("may".toList, 5), ("june".toList, 6),
   ("july".toList, 7), ("august".toList, 8), ("september".toList, 9),
   ("october".toList, 10), ("november".toList, 11), ("december".toList, 12)]

/-- The month-name branch of `_extract_date`: the first month (in dict order)
whose search hits and whose day yields a constructible date wins; a
`ValueError` continues with the next month. -/
def monthBranch (todayOrd : ℕ) (t : Str) : Option ℕ :=
  let td := ordToYmd todayOrd
  monthNames.findSome? fun pr =>
    match scanFirstPrev (matchMonthDay pr.1) none t with
    | none => none
    | some day =>
      let d : ℤ := day
      let year := if pr.2 < td.2.1 ∨ (pr.2 = td.2.1 ∧ d < td.2.2) then td.1 + 1 else td.1
      mkDateOrd year pr.2 d

/-- Candidate `\d{1,2}` captures at the head of the string, widest first (the
regex backtracking order). -/
def grab12 (s : Str) : List (Str × Str) :=
  match s with
  | a :: b :: r =>
    if a.isDigit && b.isDigit then [([a, b], r), ([a], b :: r)]
    else if a.isDigit then [([a], b :: r)] else []
  | [a] => if a.isDigit then [([a], [])] else []
  | [] => []

/-- The `[\/\-]` class. -/
def isDateSep (c : Char) : Bool := c == '/' || c == '-'

/-- Per-position match of `(\d{1,2})[\/\-](\d{1,2})(?:[\/\-](\d{2,4}))?`,
with the regex backtracking over the width of the captures. -/
def matchNumericDate (s : Str) : Option (Str × Str × Option Str) :=
  (grab12 s).findSome? fun g1 =>
    match g1.2 with
    | c1 :: r1 =>
      if isDateSep c1 then
        (grab12 r1).findSome? fun g2 =>
          let optYear : Option Str :=
            match g2.2 with
            | c2 :: r2 =>
              if isDateSep c2 then
                let ds := r2.span Char.isDigit
                if 2 ≤ ds.1.length then some (ds.1.take 4) else none
              else none
            | [] => none
          some (g1.1, g2.1, optYear)
      else none
    | [] => none

/-- The `MM/DD[/(YY)YY]` branch of `_extract_date`; an unconstructible date
falls through to `None` (the Python `pass`). -/
def numericBranch (todayOrd : ℕ) (t : Str) : Option ℕ :=
  match scanFirst matchNumericDate t with
  | none => none
  | some (_, g1, g2, g3) =>
    let month : ℤ := natOfDigits g1
    let day : ℤ := natOfDigits g2
    let year0 : ℤ := match g3 with | some ys => (natOfDigits ys : ℤ) | none => (ordToYmd todayOrd).1
    let year := if year0 < 100 then year0 + 2000 else year0
    mkDateOrd year month day

/-- `NLPService._extract_date` on the (?i)-lowered text; `todayOrd` is
`date.today().toordinal()`. -/
def extractDate (todayOrd : ℕ) (text : Str) : Option ℕ :=
  let t := lowerStr text
  if containsWord "today".toList t then some todayOrd
  else if containsWord "tomorrow".toList t then some (todayOrd + 1)
  else if containsWord "yesterday".toList t then some (todayOrd - 1)
  else
    match firstWeekday t with
    | some w => some (nextWeekdayOrd todayOrd w)
    | none =>
      match firstNextThisWeekday t with
      | some w => some (nextWeekdayOrd todayOrd w)
      | none =>
        match monthBranch todayOrd t with
        | some o => some o
        | none => numericBranch todayOrd t

/-! ## Participant service (participant_service.py) -/

/-- `MockDataGenerator.get_participant_by_email`: first directory entry whose
lowered email equals the lowered query. -/
def getParticipantByEmail (participants : List Participant) (email : Str) : Option Participant :=
  participants.find? fun p => lowerStr p.email == lowerStr email

/-- Exact-match condition of the search loop, on the processed query `n`. -/
def isExactName (n : Str) (p : Participant) : Bool :=
  n == lowerStr p.name

/-- First-name condition (`participant_name.split()[0]`; the crashing empty
case is modelled with a default, and theorems assume tokenizable names). -/
def isFirstNameHit (n : Str) (p : Participant) : Bool :=
  n == (splitWs (lowerStr p.name)).headD []

/-- Last-name condition (guarded by a length check in the source). -/
def isLastNameHit (n : Str) (p : Participant) : Bool :=
  decide (1 < (splitWs (lowerStr p.name)).length) &&
    n == (splitWs (lowerStr p.name)).getLastD []

/-- Substring condition, either direction. -/
def isPartialHit (n : Str) (p : Participant) : Bool :=
  isSubstr n (lowerStr p.name) || isSubstr (lowerStr p.name) n

/-- Token-overlap condition: some query word contains or is contained in some
name word. -/
def isOverlapHit (n : Str) (p : Participant) : Bool :=
  (splitWs n).any fun qw => (splitWs (lowerStr p.name)).any fun nw =>
    isSubstr qw nw || isSubstr nw qw

/-- The else-if chain after the exact case, as one condition. -/
def isOtherHit (n : Str) (p : Participant) : Bool :=
  !isExactName n p &&
    (isFirstNameHit n p || isLastNameHit n p || isPartialHit n p || isOverlapHit n p)

/-- The loop of `_search_participants_by_name`: an exact match is
`matches.insert(0, ...)`-ed at the front of the accumulated list, any other
hit is appended at the end. -/
def searchLoop (n : Str) : List Participant → List Participant → List Participant
  | [], acc => acc
  | p :: ps, acc =>
    if isExactName n p then searchLoop n ps (p :: acc)
    else if isFirstNameHit n p then searchLoop n ps (acc ++ [p])
    else if isLastNameHit n p then searchLoop n ps (acc ++ [p])
    else if isPartialHit n p then searchLoop n ps (acc ++ [p])
    else if isOverlapHit n p then searchLoop n ps (acc ++ [p])
    else searchLoop n ps acc

/-- The seen-set deduplication of the search result (exact email equality,
first occurrence kept). -/
def dedupByEmail (seen : List Str) : List Participant → List Participant
  | [] => []
  | p :: ps =>
    if seen.contains p.email then dedupByEmail seen ps
    else p :: dedupByEmail (p.email :: seen) ps

/-- `ParticipantService._search_participants_by_name`: lower and strip the
query, run the match loop, dedup by email and keep the first ten. -/
def searchParticipantsByName (participants : List Participant) (name : Str) :
    List Participant :=
  let n := stripStr (lowerStr name)
  if n.isEmpty then []
  else (dedupByEmail [] (searchLoop n participants [])).take 10

/-- `ParticipantService._calculate_name_confidence`. -/
def calculateNameConfidence (query : Str) (matchesL : List Participant) : ℚ :=
  match matchesL with
  | [] => 0
  | best :: _ =>
    let q := stripStr (lowerStr query)
    let bn := lowerStr best.name
    if q == bn then 1
    else if q == (splitWs bn).headD [] then
      (if matchesL.length = 1 then 9/10 else 7/10)
    else if decide (1 < (splitWs bn).length) && q == (splitWs bn).getLastD [] then
      (if matchesL.length = 1 then 8/10 else 6/10)
    else if isSubstr q bn || isSubstr bn q then
      (if matchesL.length = 1 then 7/10 else 5/10)
    else
      let overlap := (((splitWs q).dedup).filter fun w => ((splitWs bn).dedup).contains w).length
      if 0 < overlap then min (6/10) (3/10 + (overlap : ℚ) * (1/10)) else 3/10

/-- `ParticipantService._is_exact_name_match`. -/
def isExactNameMatch (query : Str) (p : Participant) : Bool :=
  stripStr (lowerStr query) == stripStr (lowerStr p.name)

/-- `ParticipantService.resolve_participants` over the mock-data state:
email queries first (silently skipping syntactically invalid ones), then name
queries whose stripped length exceeds one. -/
def resolveParticipants (st : MockState) (names emails : List Str) :
    List ParticipantMatch :=
  let emailMatches := emails.filterMap fun email =>
    if isValidEmail email then
      match getParticipantByEmail st.participants email with
      | some participant => some (mkParticipantMatch email [participant] 1 true true)
      | none =>
        some (mkParticipantMatch email
          [{ email := email, name := extractNameFromEmail email }] (8/10) false true)
    else none
  let nameMatches := names.filterMap fun name =>
    if decide (1 < (stripStr name).length) then
      let found := searchParticipantsByName st.participants name
      some (mkParticipantMatch name found (calculateNameConfidence name found)
        (decide (found.length = 1) &&
          (match found with | p :: _ => isExactNameMatch name p | [] => false))
        false)
    else none
  emailMatches ++ nameMatches

/-- The identity constructed by `add_external_participant` for a valid email:
department "External", title "External Participant", status "unknown". -/
def externalIdentity (email : Str) : Participant :=
  { email := email, name := extractNameFromEmail email,
    department := some "External".toList,
    title := some "External Participant".toList,
    availability_status := "unknown".toList }

/-- `ParticipantService.add_external_participant` called with no explicit
name: ValueError on an invalid email, otherwise the external identity. -/
def addExternalParticipant (email : Str) : Except Str Participant :=
  if !isValidEmail email then
    .error ("Invalid email format: ".toList ++ email)
  else
    .ok (externalIdentity email)

/-! ## Chat interface: confirmation state (chat_interface.py lines 320-363) -/

/-- Session state owned by the disambiguation flow: the insertion-ordered
`participant_confirmations` map and the `pending_parsed_request`. -/
structure ConfirmState where
  confirmations : List (Str × Participant) := []
  pending : Option ParsedMeetingRequest := none
deriving DecidableEq

/-- Python dict assignment `d[k] = v`: update in place when the key exists,
append otherwise. -/
def dictInsert : List (Str × Participant) → Str → Participant → List (Str × Participant)
  | [], q, p => [(q, p)]
  | (k, v) :: rest, q, p =>
    if k == q then (k, p) :: rest else (k, v) :: dictInsert rest q p

/-- `ChatInterface._confirm_participant`: record the mapping; then, if a
pending request exists and every one of its original queries is among the
confirmed keys, emit `list(confirmations.values())` and reset the session
state (delete the pending request, clear the map). -/
def confirmParticipant (st : ConfirmState) (query : Str) (participant : Participant) :
    ConfirmState × Option (List Participant) :=
  let conf := dictInsert st.confirmations query participant
  match st.pending with
  | none => ({ confirmations := conf, pending := none }, none)
  | some parsed =>
    let allQueries := parsed.participant_names ++ parsed.participant_emails
    if allQueries.all (fun q => (conf.map Prod.fst).contains q) then
      ({ confirmations := [], pending := none }, some (conf.map Prod.snd))
    else
      ({ confirmations := conf, pending := some parsed }, none)

/-- Outcome of `_add_external_participant`. -/
inductive AddExternalOutcome
  | confirmed (emitted : Option (List Participant))
  | invalidEmail
  | needEmail
deriving DecidableEq

/-- `ChatInterface._add_external_participant`: requires an `'@'` in the query
(otherwise it only asks for an email); a ValueError from the service is caught
and leaves the state untouched; otherwise the constructed external identity is
passed to `_confirm_participant`. -/
def addExternalChat (st : ConfirmState) (query : Str) : ConfirmState × AddExternalOutcome :=
  if query.contains '@' then
    match addExternalParticipant query with
    | .ok participant =>
      let r := confirmParticipant st query participant
      (r.1, .confirmed r.2)
    | .error _ => (st, .invalidEmail)
  else (st, .needEmail)

/-! ## Availability path (chat_interface.py lines 365-474)

The callees `get_availability_summary(participants, date, start, end)` and
`suggest_alternative_slots(...)` are invoked here but absent from the sources
(only this caller exists); they are modelled from the specification. -/

/-- Modelled from the spec: the availability provider
`getAvailability(emails, date, startTime, endTime) → map(email → status)`,
as a function from email and window to a status string. -/
def AvailFun : Type := Str → ℕ → ℕ → ℕ → Str

/-- Modelled from the spec: `get_availability_summary` for a concrete window —
one status per participant, keyed by email. -/
def getAvailabilitySummary (avail : AvailFun) (participants : List Participant)
    (d s e : ℕ) : List (Str × Str) :=
  participants.map fun p => (p.email, avail p.email d s e)

/-- The conflict list comprehension of `_check_availability_and_suggest`:
names of participants whose availability entry is busy. -/
def conflictNames (availability : List (Str × Str)) (participants : List Participant) :
    List Str :=
  (availability.filter fun pr => pr.2 == "busy".toList).flatMap fun pr =>
    (participants.filter fun p => p.email == pr.1).map fun p => p.name

/-- A candidate slot: date ordinal plus start and end minutes of the day. -/
structure TimeSlot where
  date : ℕ
  startMin : ℕ
  endMin : ℕ
deriving DecidableEq

/-- The 30-minute bucket starts of the 9:00-17:00 working window, in minutes
of the day. -/
def slotStarts : List ℕ := (List.range 16).map fun i => 540 + 30 * i

/-- Modelled from the spec: one day of the slot search — the 30-minute
buckets of day `d` whose slot fits inside the 9:00-17:00 window with every
participant available for its exact window. -/
def daySlots (avail : AvailFun) (participants : List Participant)
    (durationMinutes : ℕ) (d : ℕ) : List TimeSlot :=
  slotStarts.filterMap fun s =>
    if s + durationMinutes ≤ 1020 &&
        participants.all
          (fun p => avail p.email d s (s + durationMinutes) == "available".toList) then
      some ⟨d, s, s + durationMinutes⟩
    else none

/-- Modelled from the spec: `suggest_alternative_slots(participants,
target_date, requested_time, duration_minutes, days_to_check)` — scan the days
after the target date up to the horizon, keeping the fitting all-free slots,
generated soonest-first (the requested time itself plays no role in the
search). -/
def suggestAlternativeSlots (avail : AvailFun) (participants : List Participant)
    (targetDate : ℕ) (durationMinutes : ℕ) (daysToCheck : ℕ) : List TimeSlot :=
  (List.range daysToCheck).flatMap fun i =>
    daySlots avail participants durationMinutes (targetDate + 1 + i)

/-- Outcome of the requested-time branch of `_check_availability_and_suggest`. -/
inductive AvailCheckResult
  | allAvailable
  | conflictWithAlternatives (names : List Str) (slots : List TimeSlot)
  | conflictNoAlternatives (names : List Str)
deriving DecidableEq

/-- The requested-time branch of `_check_availability_and_suggest`: compute
the window end, collect the busy participants, and on a conflict search the
2-day horizon for alternatives (end-of-day wraparound of `.time()` is not
modelled; windows are plain minute sums). -/
def checkRequestedTime (avail : AvailFun) (participants : List Participant)
    (targetDate startMin durationMinutes : ℕ) : AvailCheckResult :=
  let endMin := startMin + durationMinutes
  let availability := getAvailabilitySummary avail participants targetDate startMin endMin
  let conflicts := conflictNames availability participants
  if !conflicts.isEmpty then
    let alternativeSlots := suggestAlternativeSlots avail participants targetDate durationMinutes 2
    if !alternativeSlots.isEmpty then .conflictWithAlternatives conflicts alternativeSlots
    else .conflictNoAlternatives conflicts
  else .allAvailable

/-- `ChatInterface._parse_duration`: the fixed label-to-minutes map; a falsy
(absent or empty) string gives None. -/
def parseDuration (durationStr : Option Str) : Option ℕ :=
  match durationStr with
  | none => none
  | some s =>
    if s.isEmpty then none
    else if s == "15 minutes".toList then some 15
    else if s == "30 minutes".toList then some 30
    else if s == "45 minutes".toList then some 45
    else if s == "1 hour".toList then some 60
    else if s == "1.5 hours".toList then some 90
    else if s == "2 hours".toList then some 120
    else if s == "2.5 hours".toList then some 150
    else if s == "3 hours".toList then some 180
    else none

/-- `self._parse_duration(parsed.duration_mentioned) or 60` (Python `or`,
under which both None and 0 fall back to the 60-minute default). -/
def durationMinutesOf (durationStr : Option Str) : ℕ :=
  match parseDuration durationStr with
  | none => 60
  | some v => if v = 0 then 60 else v

/-- The eight labels recognised by `_parse_duration`; they are also exactly
the canonical duration labels named by the specification. -/
def durationLabels : List Str :=
  ["15 minutes".toList, "30 minutes".toList, "45 minutes".toList, "1 hour".toList,
   "1.5 hours".toList, "2 hours".toList, "2.5 hours".toList, "3 hours".toList]

/-! ## Sample data used by the witnesses -/

/-- Directory entry mirroring `mock_data`'s John Smith. -/
def sampleJohn : Participant :=
  { email := "john.smith@company.com".toList, name := "John Smith".toList,
    department := some "Engineering".toList, title := some "Software Engineer".toList,
    availability_status := "available".toList }

/-- Directory entry mirroring `mock_data`'s Sarah Johnson. -/
def sampleSarah : Participant :=
  { email := "sarah.johnson@company.com".toList, name := "Sarah Johnson".toList,
    department := some "Marketing".toList, title := some "Marketing Manager".toList,
    availability_status := "busy".toList }

/-- A two-entry directory. -/
def sampleDirectory : List Participant := [sampleJohn, sampleSarah]

/-- A sample meeting payload. -/
def sampleMeeting : Meeting := { id := some "meeting_1".toList, title := "Daily Standup".toList }

/-- Mock-data state with the sample directory and one stored meeting. -/
def sampleState : MockState := { participants := sampleDirectory, meetings := [sampleMeeting] }

/-- The same directory snapshot with different stored meetings. -/
def sampleStateNoMeetings : MockState := { participants := sampleDirectory, meetings := [] }

/-- A pending request with two name queries. -/
def sampleParsed : ParsedMeetingRequest :=
  { original_text := "meet john and smith".toList,
    participant_names := ["john".toList, "smith".toList] }

/-- Confirmation state with query "john" confirmed and `sampleParsed`
pending. -/
def sampleConfirmState : ConfirmState :=
  { confirmations := [("john".toList, sampleJohn)], pending := some sampleParsed }

/-- An availability function under which everybody is always busy. -/
def allBusyAvail : AvailFun := fun _ _ _ _ => "busy".toList

/-- An availability function under which John is busy on day 800 only. -/
def johnBusyOn800 : AvailFun := fun em d _ _ =>
  if em == "john.smith@company.com".toList && d == 800 then "busy".toList
  else "available".toList

/-! ## Theorems -/

/-- Clamping helper: on a nonnegative sum, the source's one-sided cap at 1.0
agrees with the specification's two-sided clamp to [0,1]. -/
theorem minMaxClamp (X Y : ℚ) (h : X = Y) (h0 : 0 ≤ Y) :
    min X 1 = max 0 (min 1 Y) := by
  subst h
  rw [max_eq_right (le_min zero_le_one h0), min_comm]

/-- C3: for every parsed-request record, `_calculate_confidence` equals the
clamped-to-[0,1] sum of 0.1 (non-empty text), 0.3 (some name or email), 0.2
(date), 0.2 (time), 0.1 (duration), 0.1 (title) and 0.05 per recognised
meeting keyword capped at 0.15; in particular the confidence always lies in
[0,1].  `parse_meeting_request` assigns exactly this value on every
non-exceptional run (an empty input is assigned 0.0, which is also the value
of the formula on the empty record). -/
theorem confidence_formula (p : ParsedMeetingRequest) :
    calculateConfidence p = specConfidence p ∧
      0 ≤ calculateConfidence p ∧ calculateConfidence p ≤ 1 := by
  have hk : (0 : ℚ) ≤ min ((meetingWordsFound p.original_text : ℚ) * (5/100)) (15/100) :=
    le_min (by positivity) (by norm_num)
  have heq : calculateConfidence p = specConfidence p := by
    simp only [calculateConfidence, specConfidence]
    split_ifs <;> exact minMaxClamp _ _ (by ring) (by linarith)
  refine ⟨heq, ?_, ?_⟩
  · rw [heq]
    simp only [specConfidence]
    exact le_max_left _ _
  · rw [heq]
    simp only [specConfidence]
    exact max_le (by norm_num) (min_le_left _ _)

/-- C10: a parsed duration string that is not one of the eight labels known to
`_parse_duration` (for example the literal "90 minutes" or "150 minutes"
emitted by the extractor) converts to None, and the drafted meeting silently
falls back to the 60-minute default. -/
theorem duration_to_minutes_fallback (s : Option Str)
    (h : ∀ t ∈ durationLabels, s ≠ some t) :
    parseDuration s = none ∧ durationMinutesOf s = 60 := by
  have hp : parseDuration s = none := by
    cases s with
    | none => rfl
    | some t =>
      simp only [parseDuration]
      split_ifs with h0 e1 e2 e3 e4 e5 e6 e7 e8
      · rfl
      · exact absurd (congrArg some (eq_of_beq e1)) (h ("15 minutes".toList) (by decide))
      · exact absurd (congrArg some (eq_of_beq e2)) (h ("30 minutes".toList) (by decide))
      · exact absurd (congrArg some (eq_of_beq e3)) (h ("45 minutes".toList) (by decide))
      · exact absurd (congrArg some (eq_of_beq e4)) (h ("1 hour".toList) (by decide))
      · exact absurd (congrArg some (eq_of_beq e5)) (h ("1.5 hours".toList) (by decide))
      · exact absurd (congrArg some (eq_of_beq e6)) (h ("2 hours".toList) (by decide))
      · exact absurd (congrArg some (eq_of_beq e7)) (h ("2.5 hours".toList) (by decide))
      · exact absurd (congrArg some (eq_of_beq e8)) (h ("3 hours".toList) (by decide))
      · rfl
  exact ⟨hp, by simp [durationMinutesOf, hp]⟩

/-- C10 witness: the extractor output "90 minutes" is not a map key, converts
to None and falls back to 60 minutes. -/
theorem duration_to_minutes_fallback_witness :
    (∀ t ∈ durationLabels, (some "90 minutes".toList : Option Str) ≠ some t) ∧
      (parseDuration (some "90 minutes".toList) = none ∧
        durationMinutesOf (some "90 minutes".toList) = 60) :=
  ⟨by decide, duration_to_minutes_fallback _ (by decide)⟩

/-- C9: participant resolution is a deterministic function of the query lists
and of the participant-directory snapshot: two mock-data states with equal
directories (whatever their other state) yield identical ParticipantMatch
lists — same query, candidates, confidence, is_exact and is_email; in
particular, resolving the same email twice against a fixed snapshot yields
identical results. -/
theorem resolution_deterministic (s1 s2 : MockState) (names emails : List Str)
    (h : s1.participants = s2.participants) :
    resolveParticipants s1 names emails = resolveParticipants s2 names emails := by
  simp only [resolveParticipants, h]

/-- C9 witness: the same email resolved against the same directory carried by
two different mock states (one with a stored meeting, one without) gives the
same match. -/
theorem resolution_deterministic_witness :
    sampleState.participants = sampleStateNoMeetings.participants ∧
      resolveParticipants sampleState [] ["sarah.johnson@company.com".toList] =
        resolveParticipants sampleStateNoMeetings [] ["sarah.johnson@company.com".toList] :=
  ⟨rfl, resolution_deterministic _ _ _ _ rfl⟩

/-- C2: a syntactically valid email query yields exactly one ParticipantMatch:
a directory hit returns exactly that identity with confidence 1.0 and
is_exact = true; an unknown email synthesizes a new identity whose display
name is the local part with '.'/'_' replaced by spaces, title-cased, with
confidence 0.8 and is_exact = false. -/
theorem email_query_resolution (st : MockState) (email : Str)
    (h : isValidEmail email = true) :
    resolveParticipants st [] [email] =
      [match getParticipantByEmail st.participants email with
       | some p => ⟨email, [p], 1, true, true⟩
       | none =>
         ⟨email, [{ email := email, name := extractNameFromEmail email }],
           8/10, false, true⟩] := by
  have h1 : max (0 : ℚ) (min 1 1) = 1 := by norm_num
  have h2 : max (0 : ℚ) (min 1 (8/10)) = 8/10 := by norm_num
  cases hg : getParticipantByEmail st.participants email with
  | some p => simp [resolveParticipants, h, hg, mkParticipantMatch, h1]
  | none => simp [resolveParticipants, h, hg, mkParticipantMatch, h2]

/-- C2 witness: an unknown but well-formed address resolves to a synthesized
identity named "Amy Lee" with confidence 0.8. -/
theorem email_query_resolution_witness :
    isValidEmail "amy_lee@external.io".toList = true ∧
      resolveParticipants sampleState [] ["amy_lee@external.io".toList] =
        [match getParticipantByEmail sampleState.participants "amy_lee@external.io".toList with
         | some p => ⟨"amy_lee@external.io".toList, [p], 1, true, true⟩
         | none =>
           ⟨"amy_lee@external.io".toList,
             [{ email := "amy_lee@external.io".toList,
                name := extractNameFromEmail "amy_lee@external.io".toList }],
             8/10, false, true⟩] :=
  ⟨by decide, email_query_resolution _ _ (by decide)⟩

/-- A syntactically valid email contains an '@'. -/
theorem valid_email_contains_at (q : Str) (h : isValidEmail q = true) :
    q.contains '@' = true := by
  unfold isValidEmail at h
  rcases hd : q.dropWhile (fun c => !(c == '@')) with _ | ⟨c, cs⟩
  · rw [hd] at h
    simp at h
  · rw [hd] at h
    have hc : c = '@' := by
      have := (Bool.and_eq_true _ _).mp ((Bool.and_eq_true _ _).mp
        ((Bool.and_eq_true _ _).mp h).1).1
      exact eq_of_beq this.1
    have hmem : '@' ∈ q := by
      have hq : q.takeWhile (fun c => !(c == '@')) ++ q.dropWhile (fun c => !(c == '@')) = q :=
        List.takeWhile_append_dropWhile _ _
      rw [← hq, hd, hc]
      exact List.mem_append_right _ (List.mem_cons_self _ _)
    exact List.elem_eq_true_of_mem hmem

/-- C7 counterexample: for the well-formed email "jane.doe@acme.com" the
constructed external identity carries title "External Participant", not
"External" as the claim states (the department alone is "External"). -/
theorem add_external_title_counterexample :
    isValidEmail "jane.doe@acme.com".toList = true ∧
      (addExternalChat { confirmations := [], pending := none }
          "jane.doe@acme.com".toList).1.confirmations.map
          (fun pr => (pr.2.department, pr.2.title)) =
        [(some "External".toList, some "External Participant".toList)] ∧
      some "External Participant".toList ≠ some "External".toList := by
  decide

/-- C7 amended: the add-external operation requires '@' in the query
(otherwise it only asks for an email address and changes nothing); with '@'
but a malformed email the ValueError is surfaced, nobody is confirmed and the
confirmation state is unchanged; for a well-formed email it constructs an
identity whose department is "External" and whose title is "External
Participant" (not "External") and then behaves exactly like confirm. -/
theorem add_external_behaviour (st : ConfirmState) (q : Str) :
    (q.contains '@' = false → addExternalChat st q = (st, .needEmail)) ∧
    (q.contains '@' = true → isValidEmail q = false →
      addExternalChat st q = (st, .invalidEmail)) ∧
    (isValidEmail q = true →
      addExternalChat st q =
        ((confirmParticipant st q (externalIdentity q)).1,
          .confirmed (confirmParticipant st q (externalIdentity q)).2) ∧
      (externalIdentity q).department = some "External".toList ∧
      (externalIdentity q).title = some "External Participant".toList) := by
  refine ⟨fun hat => ?_, fun hat hv => ?_, fun hv => ?_⟩
  · unfold addExternalChat
    rw [hat]
    rfl
  · unfold addExternalChat addExternalParticipant
    rw [hat, hv]
    rfl
  · have hat : q.contains '@' = true := valid_email_contains_at q hv
    refine ⟨?_, rfl, rfl⟩
    unfold addExternalChat addExternalParticipant
    rw [hat, hv]
    rfl

/-- C7 witness: instantiation at a malformed ("not-an-email") and the
behaviour theorem applied at a state with a pending request. -/
theorem add_external_behaviour_witness :
    ("bad@@".toList.contains '@' = true ∧ isValidEmail "bad@@".toList = false ∧
        addExternalChat sampleConfirmState "bad@@".toList =
          (sampleConfirmState, .invalidEmail)) ∧
      isValidEmail "jane.doe@acme.com".toList = true ∧
        addExternalChat sampleConfirmState "jane.doe@acme.com".toList =
          ((confirmParticipant sampleConfirmState "jane.doe@acme.com".toList
              (externalIdentity "jane.doe@acme.com".toList)).1,
            .confirmed (confirmParticipant sampleConfirmState "jane.doe@acme.com".toList
              (externalIdentity "jane.doe@acme.com".toList)).2) :=
  ⟨⟨by decide, by decide,
      (add_external_behaviour sampleConfirmState "bad@@".toList).2.1 (by decide) (by decide)⟩,
    by decide,
    ((add_external_behaviour sampleConfirmState "jane.doe@acme.com".toList).2.2 (by decide)).1⟩

/-- C5 counterexample: with queries "john" and "smith" both confirmed to the
same John Smith identity, finalization emits that identity twice — the
emitted participant list is not deduplicated. -/
theorem confirm_dedup_counterexample :
    (confirmParticipant sampleConfirmState "smith".toList sampleJohn).2 =
        some [sampleJohn, sampleJohn] ∧
      ¬ ([sampleJohn, sampleJohn].map Participant.email).Nodup := by
  decide

/-- C5 amended: with a pending request, confirm(query, identity) finalizes if
and only if, after recording the mapping, the confirmed keys cover all
original name and email queries; on finalization it emits the values of the
confirmation map in insertion order — one entry per confirmed query, possibly
repeating an identity confirmed for several queries (not deduplicated) — and
resets the coordinator state; otherwise it only records the mapping. -/
theorem confirm_behaviour (st : ConfirmState) (q : Str) (participant : Participant)
    (parsed : ParsedMeetingRequest) (h : st.pending = some parsed) :
    ((confirmParticipant st q participant).2 ≠ none ↔
      ((parsed.participant_names ++ parsed.participant_emails).all
        (fun x => ((dictInsert st.confirmations q participant).map Prod.fst).contains x))
        = true) ∧
    (((parsed.participant_names ++ parsed.participant_emails).all
        (fun x => ((dictInsert st.confirmations q participant).map Prod.fst).contains x))
        = true →
      confirmParticipant st q participant =
        ({ confirmations := [], pending := none },
          some ((dictInsert st.confirmations q participant).map Prod.snd))) ∧
    (((parsed.participant_names ++ parsed.participant_emails).all
        (fun x => ((dictInsert st.confirmations q participant).map Prod.fst).contains x))
        = false →
      confirmParticipant st q participant =
        ({ confirmations := dictInsert st.confirmations q participant,
           pending := some parsed }, none)) := by
  cases hc : (parsed.participant_names ++ parsed.participant_emails).all
      (fun x => ((dictInsert st.confirmations q participant).map Prod.fst).contains x) with
  | true =>
    have hr : confirmParticipant st q participant =
        ({ confirmations := [], pending := none },
          some ((dictInsert st.confirmations q participant).map Prod.snd)) := by
      simp only [confirmParticipant, h]
      rw [hc]
      rfl
    refine ⟨?_, fun _ => hr, fun hfalse => ?_⟩
    · rw [hr]
      exact ⟨fun _ => rfl, fun _ h => Option.noConfusion h⟩
    · exact Bool.noConfusion hfalse
  | false =>
    have hr : confirmParticipant st q participant =
        ({ confirmations := dictInsert st.confirmations q participant,
           pending := some parsed }, none) := by
      simp only [confirmParticipant, h]
      rw [hc]
      rfl
    refine ⟨?_, fun htrue => ?_, fun _ => hr⟩
    · rw [hr]
      exact ⟨fun hne => (hne rfl).elim, fun hft => Bool.noConfusion hft⟩
    · exact Bool.noConfusion htrue

/-- C5 witness: the behaviour theorem applied at the sample state, where
confirming "smith" completes the query set. -/
theorem confirm_behaviour_witness :
    sampleConfirmState.pending = some sampleParsed ∧
      (((sampleParsed.participant_names ++ sampleParsed.participant_emails).all
          (fun x => ((dictInsert sampleConfirmState.confirmations "smith".toList
            sampleJohn).map Prod.fst).contains x)) = true ∧
        confirmParticipant sampleConfirmState "smith".toList sampleJohn =
          ({ confirmations := [], pending := none },
            some ((dictInsert sampleConfirmState.confirmations "smith".toList
              sampleJohn).map Prod.snd))) :=
  ⟨rfl, by decide,
    (confirm_behaviour sampleConfirmState "smith".toList sampleJohn sampleParsed rfl).2.1
      (by decide)⟩

/-- Shape of the hour-branch output. -/
theorem hourLabel_shape (d : DecNum) (minutes : ℕ) (r : Str)
    (h : hourLabel d minutes = some r) :
    r = "1 hour".toList ∨ r = "1.5 hours".toList ∨ r = "2 hours".toList ∨
      ∃ n : ℕ, 0 < n ∧ r = natDigits n ++ " minutes".toList := by
  unfold hourLabel at h
  split_ifs at h with h1 h2 h3 h4
  · exact Or.inl (Option.some.inj h).symm
  · exact Or.inr (Or.inl (Option.some.inj h).symm)
  · exact Or.inr (Or.inr (Or.inl (Option.some.inj h).symm))
  · exact Or.inr (Or.inr (Or.inr ⟨_, by omega, (Option.some.inj h).symm⟩))

/-- Shape of the minute-branch output. -/
theorem minuteLabel_shape (minutes : ℕ) (r : Str) (h : minuteLabel minutes = some r) :
    ∃ n : ℕ, 0 < n ∧ r = natDigits n ++ " minutes".toList := by
  unfold minuteLabel at h
  split_ifs at h with h1
  exact ⟨_, h1, (Option.some.inj h).symm⟩

/-- Every value produced by a duration-pattern branch is one of the four
labels the code can canonicalize to, or a literal "<n> minutes" with a
positive n. -/
theorem durStep_shape (mt : Str) (g1 g2 : Option Str) (r : Str)
    (h : durStep mt g1 g2 = some r) :
    r = "30 minutes".toList ∨ r = "1 hour".toList ∨ r = "1.5 hours".toList ∨
      r = "2 hours".toList ∨ ∃ n : ℕ, 0 < n ∧ r = natDigits n ++ " minutes".toList := by
  unfold durStep at h
  split_ifs at h with h1 h2 h3
  · exact Or.inl (Option.some.inj h).symm
  · cases g1 with
    | none => exact absurd h (by simp)
    | some d =>
      rcases hourLabel_shape _ _ _ h with h' | h' | h' | h'
      · exact Or.inr (Or.inl h')
      · exact Or.inr (Or.inr (Or.inl h'))
      · exact Or.inr (Or.inr (Or.inr (Or.inl h')))
      · exact Or.inr (Or.inr (Or.inr (Or.inr h')))
  · cases g1 with
    | none => exact absurd h (by simp)
    | some d => exact Or.inr (Or.inr (Or.inr (Or.inr (minuteLabel_shape _ _ h))))

/-- Shape of the first duration pattern's contribution. -/
theorem tryDurHM_shape (t r : Str) (h : tryDurHM t = some r) :
    r = "30 minutes".toList ∨ r = "1 hour".toList ∨ r = "1.5 hours".toList ∨
      r = "2 hours".toList ∨ ∃ n : ℕ, 0 < n ∧ r = natDigits n ++ " minutes".toList := by
  unfold tryDurHM at h
  cases hs : searchDur matchDurHM t with
  | none => rw [hs] at h; exact absurd h (by simp)
  | some pr =>
    rw [hs] at h
    exact durStep_shape pr.1 (some pr.2.1) pr.2.2 r h

/-- Shape of the second duration pattern's contribution. -/
theorem tryDurH_shape (t r : Str) (h : tryDurH t = some r) :
    r = "30 minutes".toList ∨ r = "1 hour".toList ∨ r = "1.5 hours".toList ∨
      r = "2 hours".toList ∨ ∃ n : ℕ, 0 < n ∧ r = natDigits n ++ " minutes".toList := by
  unfold tryDurH at h
  cases hs : searchDur matchDurH t with
  | none => rw [hs] at h; exact absurd h (by simp)
  | some pr =>
    rw [hs] at h
    exact durStep_shape pr.1 (some pr.2) none r h

/-- Shape of the minute-pattern contributions. -/
theorem tryDurMin_shape (lit t r : Str) (h : tryDurMin lit t = some r) :
    r = "30 minutes".toList ∨ r = "1 hour".toList ∨ r = "1.5 hours".toList ∨
      r = "2 hours".toList ∨ ∃ n : ℕ, 0 < n ∧ r = natDigits n ++ " minutes".toList := by
  unfold tryDurMin at h
  cases hs : searchDur (matchDurMin lit) t with
  | none => rw [hs] at h; exact absurd h (by simp)
  | some pr =>
    rw [hs] at h
    exact durStep_shape pr.1 (some pr.2) none r h

/-- Shape of the half-hour pattern's contribution. -/
theorem tryDurHalf_shape (t r : Str) (h : tryDurHalf t = some r) :
    r = "30 minutes".toList ∨ r = "1 hour".toList ∨ r = "1.5 hours".toList ∨
      r = "2 hours".toList ∨ ∃ n : ℕ, 0 < n ∧ r = natDigits n ++ " minutes".toList := by
  unfold tryDurHalf at h
  cases hs : searchDur matchDurHalf t with
  | none => rw [hs] at h; exact absurd h (by simp)
  | some pr =>
    rw [hs] at h
    exact durStep_shape pr.1 (some pr.2) none r h

/-- C4 amended: every successful duration extraction returns one of the
labels "30 minutes", "1 hour", "1.5 hours", "2 hours", or a literal
"<n> minutes" string with n ≥ 1; durations inside the claimed canonical set
other than those four are emitted in the literal minute form (2.5 hours as
"150 minutes", 3 hours as "180 minutes", and the 15/30/45-minute labels only
as literal minute strings). -/
theorem duration_extractor_shape (text r : Str) (h : extractDuration text = some r) :
    r = "30 minutes".toList ∨ r = "1 hour".toList ∨ r = "1.5 hours".toList ∨
      r = "2 hours".toList ∨ ∃ n : ℕ, 0 < n ∧ r = natDigits n ++ " minutes".toList := by
  unfold extractDuration at h
  cases h1 : tryDurHM (lowerStr text) with
  | some v =>
    rw [h1] at h
    simp only [Option.some_orElse] at h
    exact tryDurHM_shape _ _ (h1.trans (congrArg some (Option.some.inj h)))
  | none =>
    rw [h1] at h
    simp only [Option.none_orElse] at h
    cases h2 : tryDurH (lowerStr text) with
    | some v =>
      rw [h2] at h
      simp only [Option.some_orElse] at h
      exact tryDurH_shape _ _ (h2.trans (congrArg some (Option.some.inj h)))
    | none =>
      rw [h2] at h
      simp only [Option.none_orElse] at h
      cases h3 : tryDurMin "minute".toList (lowerStr text) with
      | some v =>
        rw [h3] at h
        simp only [Option.some_orElse] at h
        exact tryDurMin_shape _ _ _ (h3.trans (congrArg some (Option.some.inj h)))
      | none =>
        rw [h3] at h
        simp only [Option.none_orElse] at h
        cases h4 : tryDurMin "min".toList (lowerStr text) with
        | some v =>
          rw [h4] at h
          simp only [Option.some_orElse] at h
          exact tryDurMin_shape _ _ _ (h4.trans (congrArg some (Option.some.inj h)))
        | none =>
          rw [h4] at h
          simp only [Option.none_orElse] at h
          exact tryDurHalf_shape _ _ h

/-- C4 witness: "for 2 hours" extracts to the canonical "2 hours" label, of
the shape asserted by the amended claim. -/
theorem duration_extractor_shape_witness :
    extractDuration "for 2 hours".toList = some "2 hours".toList ∧
      ("2 hours".toList = "30 minutes".toList ∨ "2 hours".toList = "1 hour".toList ∨
        "2 hours".toList = "1.5 hours".toList ∨ "2 hours".toList = "2 hours".toList ∨
        ∃ n : ℕ, 0 < n ∧ "2 hours".toList = natDigits n ++ " minutes".toList) :=
  ⟨by decide, duration_extractor_shape "for 2 hours".toList _ (by decide)⟩

/-- C4 counterexample: "2.5 hours" extracts to the literal "150 minutes",
which is not a canonical label even though 150 minutes is exactly the
canonical duration 2.5 hours (a member of the canonical set) — the extractor
emits a literal "<n> minutes" string for a duration inside the canonical set,
contradicting the claim. -/
theorem duration_extractor_counterexample :
    extractDuration "2.5 hours".toList = some "150 minutes".toList ∧
      "150 minutes".toList ∉ durationLabels ∧
      "2.5 hours".toList ∈ durationLabels ∧
      (150 : ℚ) = (5/2) * 60 :=
  ⟨by decide, by decide, by decide, by norm_num⟩

/-- An if-chain whose four hit branches agree collapses to a disjunction
test. -/
theorem chain4 {α : Type} (a b c d : Bool) (X Y : α) :
    (if a then X else if b then X else if c then X else if d then X else Y) =
      (if a || b || c || d then X else Y) := by
  cases a <;> cases b <;> cases c <;> cases d <;> simp

/-- The search loop accumulates exact matches (reversed) in front of the
accumulator and the other hits behind it. -/
theorem searchLoop_eq (n : Str) (ps : List Participant) (acc : List Participant) :
    searchLoop n ps acc =
      (ps.filter fun p => isExactName n p).reverse ++ acc ++
        (ps.filter fun p => isOtherHit n p) := by
  induction ps generalizing acc with
  | nil => simp [searchLoop]
  | cons p ps ih =>
    have hchain : searchLoop n (p :: ps) acc =
        if isExactName n p then searchLoop n ps (p :: acc)
        else if (isFirstNameHit n p || isLastNameHit n p || isPartialHit n p ||
            isOverlapHit n p) then searchLoop n ps (acc ++ [p])
        else searchLoop n ps acc := by
      by_cases he : isExactName n p = true
      · simp [searchLoop, he]
      · rw [Bool.not_eq_true] at he
        simp only [searchLoop, he, Bool.false_eq_true, if_false]
        exact chain4 _ _ _ _ _ _
    by_cases he : isExactName n p = true
    · have hno : isOtherHit n p = false := by simp [isOtherHit, he]
      rw [hchain, if_pos he, ih, List.filter_cons, List.filter_cons]
      simp [he, hno, List.append_assoc]
    · rw [Bool.not_eq_true] at he
      have hoh : isOtherHit n p =
          (isFirstNameHit n p || isLastNameHit n p || isPartialHit n p ||
            isOverlapHit n p) := by
        simp [isOtherHit, he]
      by_cases h4 : (isFirstNameHit n p || isLastNameHit n p || isPartialHit n p ||
          isOverlapHit n p) = true
      · rw [hchain, if_neg (by simp [he]), if_pos h4, ih, List.filter_cons, List.filter_cons]
        simp [he, hoh, h4, List.append_assoc]
      · rw [Bool.not_eq_true] at h4
        rw [hchain, if_neg (by simp [he]), if_neg (by simp [h4]), ih,
          List.filter_cons, List.filter_cons]
        simp [he, hoh, h4]

/-- Deduplication returns a sublist of its input. -/
theorem dedup_sublist (seen : List Str) (l : List Participant) :
    List.Sublist (dedupByEmail seen l) l := by
  induction l generalizing seen with
  | nil => exact List.Sublist.refl _
  | cons p ps ih =>
    unfold dedupByEmail
    split_ifs with hc
    · exact (ih seen).cons p
    · exact (ih (p.email :: seen)).cons₂ p

/-- Deduplication produces pairwise-distinct emails, none of them in the seen
set. -/
theorem dedup_nodup (seen : List Str) (l : List Participant) :
    ((dedupByEmail seen l).map Participant.email).Nodup ∧
      ∀ e ∈ (dedupByEmail seen l).map Participant.email, seen.contains e = false := by
  induction l generalizing seen with
  | nil => simp [dedupByEmail]
  | cons p ps ih =>
    unfold dedupByEmail
    split_ifs with hc
    · exact ih seen
    · obtain ⟨ihn, ihs⟩ := ih (p.email :: seen)
      rw [Bool.not_eq_true] at hc
      refine ⟨?_, ?_⟩
      · rw [List.map_cons, List.nodup_cons]
        refine ⟨fun hmem => ?_, ihn⟩
        have hfalse := ihs _ hmem
        simp [List.contains_cons] at hfalse
      · intro e he
        rw [List.map_cons, List.mem_cons] at he
        rcases he with rfl | he
        · exact hc
        · have hfalse := ihs _ he
          simp only [List.contains_cons, Bool.or_eq_false_iff] at hfalse
          exact hfalse.2

/-- A sublist of a P-then-not-P concatenation splits the same way. -/
theorem front_split {l' xs ys : List Participant} (P : Participant → Bool)
    (h : List.Sublist l' (xs ++ ys)) (hx : ∀ p ∈ xs, P p = true)
    (hy : ∀ p ∈ ys, P p = false) :
    ∃ as bs, l' = as ++ bs ∧ (∀ p ∈ as, P p = true) ∧ (∀ p ∈ bs, P p = false) := by
  rcases List.sublist_append_iff.mp h with ⟨as, bs, rfl, hxs, hys⟩
  exact ⟨as, bs, rfl, fun p hp => hx p (hxs.subset hp), fun p hp => hy p (hys.subset hp)⟩

/-- C6: for every name query and directory (with tokenizable names, the only
inputs on which the Python search does not crash), the candidate list has
pairwise-distinct emails, at most ten entries, and every exact full-name
match precedes every non-exact hit. -/
theorem name_search_invariants (participants : List Participant) (name : Str)
    (_hdir : ∀ p ∈ participants, splitWs (lowerStr p.name) ≠ []) :
    ((searchParticipantsByName participants name).map Participant.email).Nodup ∧
      (searchParticipantsByName participants name).length ≤ 10 ∧
      ∃ xs ys, searchParticipantsByName participants name = xs ++ ys ∧
        (∀ p ∈ xs, isExactName (stripStr (lowerStr name)) p = true) ∧
        (∀ p ∈ ys, isExactName (stripStr (lowerStr name)) p = false) := by
  simp only [searchParticipantsByName]
  split_ifs with hempty
  · exact ⟨by simp, by simp, [], [], by simp, by simp, by simp⟩
  · set n := stripStr (lowerStr name) with hn
    set inner := searchLoop n participants [] with hinner
    refine ⟨?_, ?_, ?_⟩
    · have hnd := (dedup_nodup [] inner).1
      have hsub : List.Sublist (((dedupByEmail [] inner).take 10).map Participant.email)
          ((dedupByEmail [] inner).map Participant.email) :=
        (List.take_sublist _ _).map _
      exact hnd.sublist hsub
    · rw [List.length_take]
      exact min_le_left _ _
    · have hdecomp : inner = (participants.filter fun p => isExactName n p).reverse ++
          (participants.filter fun p => isOtherHit n p) := by
        rw [hinner, searchLoop_eq]
        simp
      have hx : ∀ p ∈ (participants.filter fun p => isExactName n p).reverse,
          isExactName n p = true := by
        intro p hp
        rw [List.mem_reverse, List.mem_filter] at hp
        exact hp.2
      have hy : ∀ p ∈ participants.filter fun p => isOtherHit n p,
          isExactName n p = false := by
        intro p hp
        rw [List.mem_filter] at hp
        have := hp.2
        simp only [isOtherHit, Bool.and_eq_true, Bool.not_eq_true'] at this
        exact this.1
      have hsub : List.Sublist (dedupByEmail [] inner)
          ((participants.filter fun p => isExactName n p).reverse ++
            (participants.filter fun p => isOtherHit n p)) := by
        rw [← hdecomp]
        exact dedup_sublist [] inner
      rcases front_split (fun p => isExactName n p) hsub hx hy with
        ⟨as, bs, heq, has, hbs⟩
      refine ⟨as.take 10, bs.take (10 - as.length), ?_, ?_, ?_⟩
      · rw [heq, List.take_append_eq_append_take]
      · exact fun p hp => has p (List.take_subset _ _ hp)
      · exact fun p hp => hbs p (List.take_subset _ _ hp)

/-- C6 witness: searching "john" in the sample directory respects all three
invariants. -/
theorem name_search_invariants_witness :
    (∀ p ∈ sampleDirectory, splitWs (lowerStr p.name) ≠ []) ∧
      (((searchParticipantsByName sampleDirectory "john".toList).map
          Participant.email).Nodup ∧
        (searchParticipantsByName sampleDirectory "john".toList).length ≤ 10 ∧
        ∃ xs ys, searchParticipantsByName sampleDirectory "john".toList = xs ++ ys ∧
          (∀ p ∈ xs, isExactName (stripStr (lowerStr "john".toList)) p = true) ∧
          (∀ p ∈ ys, isExactName (stripStr (lowerStr "john".toList)) p = false)) :=
  ⟨by decide, name_search_invariants _ _ (by decide)⟩

/-- The `days_ahead` computation always lands on the requested weekday,
between one and seven days out, and exactly seven days out when the requested
weekday is today's. -/
theorem nextWeekdayOrd_spec (t w : ℕ) (hw : w ≤ 6) :
    ∃ k, nextWeekdayOrd t w = t + k ∧ 1 ≤ k ∧ k ≤ 7 ∧ pyWeekday (t + k) = w ∧
      (pyWeekday t = w → k = 7) := by
  have hm : (t + 6) % 7 < 7 := Nat.mod_lt _ (by norm_num)
  unfold nextWeekdayOrd pyWeekday
  split_ifs with hda
  · exact ⟨w + 7 - (t + 6) % 7, by omega, by omega, by omega, by omega, fun hmw => by omega⟩
  · exact ⟨w - (t + 6) % 7, by omega, by omega, by omega, by omega, fun hmw => by omega⟩

/-- C8: on a text with no relative keyword in which some bare weekday name
occurs (the first such in Monday-first order being weekday `w`), the date
extractor returns the next occurrence of that weekday strictly after today:
between 1 and 7 days ahead, landing on weekday `w`, and exactly 7 days ahead
when `w` is today's weekday. -/
theorem weekday_date_extraction (todayOrd : ℕ) (text : Str)
    (hToday : containsWord "today".toList (lowerStr text) = false)
    (hTom : containsWord "tomorrow".toList (lowerStr text) = false)
    (hYes : containsWord "yesterday".toList (lowerStr text) = false)
    (w : ℕ) (hw : firstWeekday (lowerStr text) = some w) :
    ∃ k, extractDate todayOrd text = some (todayOrd + k) ∧ 1 ≤ k ∧ k ≤ 7 ∧
      pyWeekday (todayOrd + k) = w ∧ (pyWeekday todayOrd = w → k = 7) := by
  have hw6 : w ≤ 6 := by
    unfold firstWeekday at hw
    split_ifs at hw <;> (injection hw with h; omega)
  rcases nextWeekdayOrd_spec todayOrd w hw6 with ⟨k, hk, h1, h2, h3, h4⟩
  refine ⟨k, ?_, h1, h2, h3, h4⟩
  unfold extractDate
  simp only [hToday, hTom, hYes, Bool.false_eq_true, if_false, hw]
  rw [hk]

/-- C8 witness: "see you friday" with today a Monday (ordinal 8) gives the
Friday four days later. -/
theorem weekday_date_extraction_witness :
    (containsWord "today".toList (lowerStr "see you friday".toList) = false ∧
        containsWord "tomorrow".toList (lowerStr "see you friday".toList) = false ∧
        containsWord "yesterday".toList (lowerStr "see you friday".toList) = false ∧
        firstWeekday (lowerStr "see you friday".toList) = some 4) ∧
      ∃ k, extractDate 8 "see you friday".toList = some (8 + k) ∧ 1 ≤ k ∧ k ≤ 7 ∧
        pyWeekday (8 + k) = 4 ∧ (pyWeekday 8 = 4 → k = 7) :=
  ⟨⟨by decide, by decide, by decide, by decide⟩,
    weekday_date_extraction 8 _ (by decide) (by decide) (by decide) 4 (by decide)⟩

/-- Membership in one day's slot list: exactly the fitting all-free bucket
starts of that day. -/
theorem daySlots_mem (avail : AvailFun) (ps : List Participant) (dur d : ℕ)
    (x : TimeSlot) :
    x ∈ daySlots avail ps dur d ↔ ∃ s ∈ slotStarts, s + dur ≤ 1020 ∧
      (∀ q ∈ ps, avail q.email d s (s + dur) = "available".toList) ∧
      x = ⟨d, s, s + dur⟩ := by
  unfold daySlots
  rw [List.mem_filterMap]
  constructor
  · rintro ⟨s, hs, hsome⟩
    split_ifs at hsome with hc
    rcases Bool.and_eq_true_iff.mp hc with ⟨h1, h2⟩
    refine ⟨s, hs, of_decide_eq_true h1, ?_, (Option.some.inj hsome).symm⟩
    intro q hq
    exact eq_of_beq (List.all_eq_true.mp h2 q hq)
  · rintro ⟨s, hs, h1, h2, rfl⟩
    refine ⟨s, hs, ?_⟩
    rw [if_pos]
    exact Bool.and_eq_true_iff.mpr
      ⟨decide_eq_true h1,
        List.all_eq_true.mpr fun q hq => by rw [h2 q hq]; exact beq_self_eq_true _⟩

/-- A filterMap over a strictly increasing list of starts is pairwise in any
relation compatible with the order of the starts. -/
theorem pairwise_filterMap_of_lt {f : ℕ → Option TimeSlot}
    {R : TimeSlot → TimeSlot → Prop}
    (hf : ∀ a b x y, a < b → f a = some x → f b = some y → R x y)
    (l : List ℕ) (hl : l.Pairwise (· < ·)) : (l.filterMap f).Pairwise R := by
  induction l with
  | nil => simp
  | cons a l ih =>
    rw [List.pairwise_cons] at hl
    rw [List.filterMap_cons]
    cases hfa : f a with
    | none => exact ih hl.2
    | some x =>
      rw [List.pairwise_cons]
      refine ⟨?_, ih hl.2⟩
      intro y hy
      rcases List.mem_filterMap.mp hy with ⟨b, hb, hfb⟩
      exact hf a b x y (hl.1 b hb) hfa hfb

/-- One day's slots are strictly increasing in start time, all on that day. -/
theorem daySlots_pairwise (avail : AvailFun) (ps : List Participant) (dur d : ℕ) :
    (daySlots avail ps dur d).Pairwise
      (fun a b => a.date = d ∧ b.date = d ∧ a.startMin < b.startMin) := by
  unfold daySlots
  refine pairwise_filterMap_of_lt ?_ slotStarts (by decide)
  intro a b x y hab hfa hfb
  split_ifs at hfa hfb
  cases Option.some.inj hfa
  cases Option.some.inj hfb
  exact ⟨rfl, rfl, hab⟩

/-- The 2-day alternative search is the concatenation of the two days after
the target date. -/
theorem suggest_two_days (avail : AvailFun) (ps : List Participant) (t dur : ℕ) :
    suggestAlternativeSlots avail ps t dur 2 =
      daySlots avail ps dur (t + 1) ++ daySlots avail ps dur (t + 2) := by
  unfold suggestAlternativeSlots
  rw [show List.range 2 = [0, 1] from rfl]
  simp only [List.flatMap_cons, List.flatMap_nil, List.append_nil]

/-- A busy participant always appears in the conflict list. -/
theorem conflictNames_mem (avail : AvailFun) (ps : List Participant) (d s e : ℕ)
    (p : Participant) (hp : p ∈ ps) (hb : avail p.email d s e = "busy".toList) :
    p.name ∈ conflictNames (getAvailabilitySummary avail ps d s e) ps := by
  unfold conflictNames getAvailabilitySummary
  apply List.mem_flatMap.mpr
  refine ⟨(p.email, avail p.email d s e), ?_, ?_⟩
  · apply List.mem_filter.mpr
    refine ⟨List.mem_map.mpr ⟨p, hp, rfl⟩, ?_⟩
    simp [hb]
  · apply List.mem_map.mpr
    refine ⟨p, List.mem_filter.mpr ⟨hp, ?_⟩, rfl⟩
    simp

/-- C1 amended: when some participant is busy for the requested window, the
engine reports the conflict (the busy participant's name is on the conflict
list and the outcome is never "all available"); every alternative it returns
lies on day target+1 or target+2, starts on a 30-minute bucket of the
9:00-17:00 window, fits inside it, and has every participant available; the
alternatives are ordered soonest-first (strictly increasing by date, then
start time); whenever the list is non-empty it is exactly what the engine
hands back with the conflict, and it is non-empty precisely when some
in-horizon bucket frees all participants — it may be empty otherwise. -/
theorem conflict_alternatives_spec (avail : AvailFun) (participants : List Participant)
    (targetDate startMin durationMinutes : ℕ) (p : Participant)
    (hp : p ∈ participants)
    (hb : avail p.email targetDate startMin (startMin + durationMinutes) =
      "busy".toList) :
    p.name ∈ conflictNames (getAvailabilitySummary avail participants targetDate startMin
        (startMin + durationMinutes)) participants ∧
    checkRequestedTime avail participants targetDate startMin durationMinutes ≠
      .allAvailable ∧
    (∀ slot ∈ suggestAlternativeSlots avail participants targetDate durationMinutes 2,
      (slot.date = targetDate + 1 ∨ slot.date = targetDate + 2) ∧
        slot.startMin ∈ slotStarts ∧ slot.endMin = slot.startMin + durationMinutes ∧
        slot.endMin ≤ 1020 ∧
        ∀ q ∈ participants,
          avail q.email slot.date slot.startMin slot.endMin = "available".toList) ∧
    (suggestAlternativeSlots avail participants targetDate durationMinutes 2).Pairwise
      (fun a b => a.date < b.date ∨ (a.date = b.date ∧ a.startMin < b.startMin)) ∧
    (suggestAlternativeSlots avail participants targetDate durationMinutes 2 ≠ [] →
      checkRequestedTime avail participants targetDate startMin durationMinutes =
        .conflictWithAlternatives
          (conflictNames (getAvailabilitySummary avail participants targetDate startMin
            (startMin + durationMinutes)) participants)
          (suggestAlternativeSlots avail participants targetDate durationMinutes 2)) ∧
    ((∃ d s, (d = targetDate + 1 ∨ d = targetDate + 2) ∧ s ∈ slotStarts ∧
        s + durationMinutes ≤ 1020 ∧
        ∀ q ∈ participants, avail q.email d s (s + durationMinutes) =
          "available".toList) →
      suggestAlternativeSlots avail participants targetDate durationMinutes 2 ≠ []) := by
  have hconf : p.name ∈ conflictNames (getAvailabilitySummary avail participants
      targetDate startMin (startMin + durationMinutes)) participants :=
    conflictNames_mem avail participants targetDate startMin
      (startMin + durationMinutes) p hp hb
  have hcne : conflictNames (getAvailabilitySummary avail participants targetDate startMin
      (startMin + durationMinutes)) participants ≠ [] :=
    List.ne_nil_of_mem hconf
  have hcfalse : (conflictNames (getAvailabilitySummary avail participants targetDate
      startMin (startMin + durationMinutes)) participants).isEmpty = false := by
    cases hcase : conflictNames (getAvailabilitySummary avail participants targetDate
        startMin (startMin + durationMinutes)) participants with
    | nil => exact absurd hcase hcne
    | cons a l => rfl
  have htwo := suggest_two_days avail participants targetDate durationMinutes
  refine ⟨hconf, ?_, ?_, ?_, ?_, ?_⟩
  · simp only [checkRequestedTime]
    rw [hcfalse]
    split_ifs <;> simp_all
  · intro slot hs
    rw [htwo, List.mem_append] at hs
    rcases hs with hs | hs
    · rcases (daySlots_mem _ _ _ _ _).mp hs with ⟨s, hsS, hfit, hfree, rfl⟩
      exact ⟨Or.inl rfl, hsS, rfl, hfit, hfree⟩
    · rcases (daySlots_mem _ _ _ _ _).mp hs with ⟨s, hsS, hfit, hfree, rfl⟩
      exact ⟨Or.inr rfl, hsS, rfl, hfit, hfree⟩
  · rw [htwo]
    apply List.pairwise_append.mpr
    refine ⟨?_, ?_, ?_⟩
    · exact (daySlots_pairwise _ _ _ _).imp fun h => Or.inr ⟨h.1.trans h.2.1.symm, h.2.2⟩
    · exact (daySlots_pairwise _ _ _ _).imp fun h => Or.inr ⟨h.1.trans h.2.1.symm, h.2.2⟩
    · intro x hx y hy
      rcases (daySlots_mem _ _ _ _ _).mp hx with ⟨s, _, _, _, rfl⟩
      rcases (daySlots_mem _ _ _ _ _).mp hy with ⟨s', _, _, _, rfl⟩
      exact Or.inl (show targetDate + 1 < targetDate + 2 by omega)
  · intro halt
    have haltfalse : (suggestAlternativeSlots avail participants targetDate
        durationMinutes 2).isEmpty = false := by
      cases hcase : suggestAlternativeSlots avail participants targetDate
          durationMinutes 2 with
      | nil => exact absurd hcase halt
      | cons a l => rfl
    simp only [checkRequestedTime]
    rw [hcfalse, haltfalse]
    rfl
  · rintro ⟨d, s, hd, hsS, hfit, hfree⟩
    apply List.ne_nil_of_mem (a := (⟨d, s, s + durationMinutes⟩ : TimeSlot))
    rw [htwo, List.mem_append]
    rcases hd with rfl | rfl
    · exact Or.inl ((daySlots_mem _ _ _ _ _).mpr ⟨s, hsS, hfit, hfree, rfl⟩)
    · exact Or.inr ((daySlots_mem _ _ _ _ _).mpr ⟨s, hsS, hfit, hfree, rfl⟩)

/-- C1 witness: John busy at the requested window of day 800, Sarah free —
the theorem's conclusion holds at this instance (here every in-horizon slot
frees both participants, so the list is non-empty). -/
theorem conflict_alternatives_spec_witness :
    (sampleJohn ∈ [sampleJohn, sampleSarah] ∧
        johnBusyOn800 sampleJohn.email 800 600 (600 + 60) = "busy".toList) ∧
      sampleJohn.name ∈ conflictNames (getAvailabilitySummary johnBusyOn800
        [sampleJohn, sampleSarah] 800 600 (600 + 60)) [sampleJohn, sampleSarah] ∧
      checkRequestedTime johnBusyOn800 [sampleJohn, sampleSarah] 800 600 60 ≠
        .allAvailable ∧
      (∀ slot ∈ suggestAlternativeSlots johnBusyOn800 [sampleJohn, sampleSarah] 800 60 2,
        (slot.date = 800 + 1 ∨ slot.date = 800 + 2) ∧
          slot.startMin ∈ slotStarts ∧ slot.endMin = slot.startMin + 60 ∧
          slot.endMin ≤ 1020 ∧
          ∀ q ∈ [sampleJohn, sampleSarah],
            johnBusyOn800 q.email slot.date slot.startMin slot.endMin =
              "available".toList) ∧
      (suggestAlternativeSlots johnBusyOn800 [sampleJohn, sampleSarah] 800 60 2).Pairwise
        (fun a b => a.date < b.date ∨ (a.date = b.date ∧ a.startMin < b.startMin)) ∧
      (suggestAlternativeSlots johnBusyOn800 [sampleJohn, sampleSarah] 800 60 2 ≠ [] →
        checkRequestedTime johnBusyOn800 [sampleJohn, sampleSarah] 800 600 60 =
          .conflictWithAlternatives
            (conflictNames (getAvailabilitySummary johnBusyOn800
              [sampleJohn, sampleSarah] 800 600 (600 + 60)) [sampleJohn, sampleSarah])
            (suggestAlternativeSlots johnBusyOn800 [sampleJohn, sampleSarah] 800 60 2)) ∧
      ((∃ d s, (d = 800 + 1 ∨ d = 800 + 2) ∧ s ∈ slotStarts ∧ s + 60 ≤ 1020 ∧
          ∀ q ∈ [sampleJohn, sampleSarah],
            johnBusyOn800 q.email d s (s + 60) = "available".toList) →
        suggestAlternativeSlots johnBusyOn800 [sampleJohn, sampleSarah] 800 60 2 ≠ []) :=
  ⟨⟨by decide, by decide⟩,
    conflict_alternatives_spec johnBusyOn800 [sampleJohn, sampleSarah] 800 600 60
      sampleJohn (by decide) (by decide)⟩

/-- C1 counterexample: with the sole participant busy at every window, the
requested slot conflicts but the engine's 2-day alternative search is empty —
the claimed unconditionally non-empty alternative list does not exist. -/
theorem conflict_alternatives_counterexample :
    allBusyAvail sampleJohn.email 800 600 660 = "busy".toList ∧
      suggestAlternativeSlots allBusyAvail [sampleJohn] 800 60 2 = [] ∧
      checkRequestedTime allBusyAvail [sampleJohn] 800 600 60 =
        .conflictNoAlternatives ["John Smith".toList] :=
  ⟨by decide, by decide, by decide⟩

end SmartMeet
